import Mathlib

/-!
Shallow embedding of the `gemini-enterprise-api-explorer` frontend
(TypeScript) in Lean 4, together with theorems settling the frozen claims
about it.  JavaScript strings are modelled as `List Char`; fallible
operations return `Option`/`Except`; the host `JSON.parse`/`JSON.stringify`
pair is modelled by an executable parser and printer over a `Json` value
type restricted to integer numerals (the repository's streamed payloads and
stored configuration only use strings, booleans, `null` and small
integers).
-/

set_option maxRecDepth 8192

namespace Explorer

/-- The character `{` (kept as a named constant). -/
def braceL : Char := Char.ofNat 123

/-- The character `}` (kept as a named constant). -/
def braceR : Char := Char.ofNat 125

/-- Models JavaScript `String.prototype.split(sep)` for a one-character
separator: `split` never returns an empty list, and the segments do not
contain the separator.  Mirrors `buffer.split('\n')` in
`src/frontend/lib/api.ts` (converseStream) and
`fileName.split('.')` in `uploadFileSource`/`getContentTypeFromFileName`. -/
def splitCh (sep : Char) : List Char → List (List Char)
  | [] => [[]]
  | c :: cs =>
    if c = sep then [] :: splitCh sep cs
    else (c :: (splitCh sep cs).headI) :: (splitCh sep cs).tail

/-- The complete lines extracted from a buffer: everything `split('\n')`
produces except the trailing (possibly partial) segment.  This is the list
the source iterates over after `const lines = buffer.split('\n')`;
`buffer = lines.pop() || ''` removes the last segment. -/
def completeSegs (sep : Char) (x : List Char) : List (List Char) :=
  (splitCh sep x).dropLast

/-- The trailing segment retained as the new buffer, i.e. the value of
`lines.pop() || ''` (an empty trailing segment and the `|| ''` default
coincide in the model). -/
def pendingSeg (sep : Char) (x : List Char) : List Char :=
  (splitCh sep x).getLastD []

/-- JSON values, the image of the host `JSON.parse`.  Numerals are
restricted to integers: the repository only ever parses streamed payloads
and stored configuration built from strings, booleans, `null`, arrays,
objects and small integers. -/
inductive Json where
  | null : Json
  | bool (b : Bool) : Json
  | num (n : Int) : Json
  | str (s : List Char) : Json
  | arr (elems : List Json) : Json
  | obj (members : List (List Char × Json)) : Json

/-- JSON insignificant whitespace. -/
def isJsonWs (c : Char) : Bool :=
  c = ' ' || c = '\t' || c = '\n' || c = '\r'

def skipWs : List Char → List Char
  | [] => []
  | c :: cs => if isJsonWs c then skipWs cs else c :: cs

def hexVal (c : Char) : Option Nat :=
  if '0' ≤ c ∧ c ≤ '9' then some (c.toNat - '0'.toNat)
  else if 'a' ≤ c ∧ c ≤ 'f' then some (c.toNat - 'a'.toNat + 10)
  else if 'A' ≤ c ∧ c ≤ 'F' then some (c.toNat - 'A'.toNat + 10)
  else none

def consStr (c : Char) :
    Option (List Char × List Char) → Option (List Char × List Char)
  | some (s, r) => some (c :: s, r)
  | none => none

/-- Parses the body of a JSON string literal (after the opening quote),
returning the decoded characters and the input remaining after the closing
quote.  Handles the escape sequences accepted by `JSON.parse`. -/
def parseStringBody (l : List Char) : Option (List Char × List Char) :=
  match l with
  | [] => none
  | c :: cs =>
    if c = '"' then some ([], cs)
    else if c = '\\' then
      match cs with
      | [] => none
      | e :: cs2 =>
        if e = '"' then consStr '"' (parseStringBody cs2)
        else if e = '\\' then consStr '\\' (parseStringBody cs2)
        else if e = '/' then consStr '/' (parseStringBody cs2)
        else if e = 'b' then consStr (Char.ofNat 8) (parseStringBody cs2)
        else if e = 'f' then consStr (Char.ofNat 12) (parseStringBody cs2)
        else if e = 'n' then consStr '\n' (parseStringBody cs2)
        else if e = 'r' then consStr '\r' (parseStringBody cs2)
        else if e = 't' then consStr '\t' (parseStringBody cs2)
        else if e = 'u' then
          match cs2 with
          | h1 :: h2 :: h3 :: h4 :: cs3 =>
            match hexVal h1, hexVal h2, hexVal h3, hexVal h4 with
            | some a, some b, some c2, some d =>
              consStr (Char.ofNat (((a * 16 + b) * 16 + c2) * 16 + d))
                (parseStringBody cs3)
            | _, _, _, _ => none
          | _ => none
        else none
    else consStr c (parseStringBody cs)

def digitVal (c : Char) : Nat := c.toNat - '0'.toNat

def parseDigitsAux : List Char → Nat → Nat × List Char
  | [], acc => (acc, [])
  | c :: cs, acc =>
    if c.isDigit then parseDigitsAux cs (acc * 10 + digitVal c)
    else (acc, c :: cs)

/-- Parses one or more decimal digits into a natural number. -/
def parseDigits : List Char → Option (Nat × List Char)
  | [] => none
  | c :: cs =>
    if c.isDigit then some (parseDigitsAux (c :: cs) 0) else none

mutual

/-- Parses one JSON value (fuel-indexed recursion; `jsonParse` supplies
ample fuel, so exhaustion never occurs on inputs `JSON.parse` accepts). -/
def parseValue : Nat → List Char → Option (Json × List Char)
  | 0, _ => none
  | fuel + 1, input =>
    match skipWs input with
    | [] => none
    | c :: cs =>
      if c = '"' then
        match parseStringBody cs with
        | some (s, r) => some (Json.str s, r)
        | none => none
      else if c = braceL then
        match skipWs cs with
        | [] => none
        | d :: r =>
          if d = braceR then some (Json.obj [], r)
          else
            match parseMembers fuel (d :: r) with
            | some (ms, r2) => some (Json.obj ms, r2)
            | none => none
      else if c = '[' then
        match skipWs cs with
        | [] => none
        | d :: r =>
          if d = ']' then some (Json.arr [], r)
          else
            match parseElems fuel (d :: r) with
            | some (vs, r2) => some (Json.arr vs, r2)
            | none => none
      else if c = 't' then
        if ['r', 'u', 'e'].isPrefixOf cs then some (Json.bool true, cs.drop 3)
        else none
      else if c = 'f' then
        if ['a', 'l', 's', 'e'].isPrefixOf cs then
          some (Json.bool false, cs.drop 4)
        else none
      else if c = 'n' then
        if ['u', 'l', 'l'].isPrefixOf cs then some (Json.null, cs.drop 3)
        else none
      else if c = '-' then
        match parseDigits cs with
        | some (n, r) => some (Json.num (-(n : Int)), r)
        | none => none
      else
        match parseDigits (c :: cs) with
        | some (n, r) => some (Json.num (n : Int), r)
        | none => none

/-- Parses the non-empty member list of a JSON object, consuming the
closing brace. -/
def parseMembers :
    Nat → List Char → Option (List (List Char × Json) × List Char)
  | 0, _ => none
  | fuel + 1, input =>
    match skipWs input with
    | [] => none
    | c :: cs =>
      if c = '"' then
        match parseStringBody cs with
        | some (k, r1) =>
          match skipWs r1 with
          | ':' :: r2 =>
            match parseValue fuel r2 with
            | some (v, r3) =>
              match skipWs r3 with
              | [] => none
              | d :: r4 =>
                if d = ',' then
                  match parseMembers fuel r4 with
                  | some (ms, r5) => some ((k, v) :: ms, r5)
                  | none => none
                else if d = braceR then some ([(k, v)], r4)
                else none
            | none => none
          | _ => none
        | none => none
      else none

/-- Parses the non-empty element list of a JSON array, consuming the
closing bracket. -/
def parseElems : Nat → List Char → Option (List Json × List Char)
  | 0, _ => none
  | fuel + 1, input =>
    match parseValue fuel input with
    | some (v, r1) =>
      match skipWs r1 with
      | [] => none
      | d :: r2 =>
        if d = ',' then
          match parseElems fuel r2 with
          | some (vs, r3) => some (v :: vs, r3)
          | none => none
        else if d = ']' then some ([v], r2)
        else none
    | none => none

end

/-- Models the host `JSON.parse`: parses one value, requires the rest of
the input to be whitespace, and returns `none` where `JSON.parse` would
throw a `SyntaxError`.  The fuel `s.length + 16` is ample because every
recursive descent step consumes input. -/
def jsonParse (s : List Char) : Option Json :=
  match parseValue (s.length + 16) s with
  | some (j, rest) => if skipWs rest = [] then some j else none
  | none => none

def lookupLast (k : List Char) : List (List Char × Json) → Option Json
  | [] => none
  | (k', v) :: rest =>
    match lookupLast k rest with
    | some r => some r
    | none => if k' = k then some v else none

/-- Models JavaScript property access `value.field` on a parsed JSON
value: a field of an object (later duplicate keys win, as in
`JSON.parse`), and `undefined` (here `none`) on anything else. -/
def Json.getField : Json → List Char → Option Json
  | Json.obj ms, k => lookupLast k ms
  | _, _ => none

/-- The SSE marker checked by `line.startsWith('data: ')` in
`converseStream` (`src/frontend/lib/api.ts`). -/
def sseMarker : List Char := "data: ".toList

/-- Models `parsed.type === 'done' || parsed.type === 'error'`: true
exactly when the payload's `type` property is one of the two strings. -/
def isTerminalPayload (p : Json) : Bool :=
  match p.getField "type".toList with
  | some (Json.str s) => s = "done".toList || s = "error".toList
  | _ => false

/-- Processes the complete lines cut out of the stream buffer, mirroring
the `for (const line of lines)` body of `converseStream`: a line starting
with `data: ` has its remainder `line.slice(6)` parsed as JSON and
yielded; a payload `JSON.parse` rejects is skipped (the `catch` only
logs); any other line is ignored; after yielding a payload whose `type` is
`done`/`error` the generator returns at once.  Result: the yielded
payloads in order, and whether the generator returned early. -/
def processLines : List (List Char) → List Json × Bool
  | [] => ([], false)
  | l :: ls =>
    if sseMarker.isPrefixOf l then
      match jsonParse (l.drop 6) with
      | some p =>
        if isTerminalPayload p then ([p], true)
        else (p :: (processLines ls).1, (processLines ls).2)
      | none => processLines ls
    else processLines ls

/-- Models `converseStream`'s read loop after a successful fetch: `chunks`
are the decoded strings the reader produces in order, `buf` the carried
partial line.  Each iteration appends the chunk to the buffer, splits on
`'\n'`, retains the trailing segment (`lines.pop() || ''`) as the new
buffer and processes the complete lines. -/
def streamLoop : List (List Char) → List Char → List Json × Bool
  | [], _ => ([], false)
  | chunk :: rest, buf =>
    let step := processLines (completeSegs '\n' (buf ++ chunk))
    if step.2 then step
    else
      (step.1 ++ (streamLoop rest (pendingSeg '\n' (buf ++ chunk))).1,
       (streamLoop rest (pendingSeg '\n' (buf ++ chunk))).2)

/-- The payloads `converseStream` yields for a given chunked input stream
(the generator starts with an empty buffer), with the early-return flag. -/
def converseStream (chunks : List (List Char)) : List Json × Bool :=
  streamLoop chunks []

/-! Chat stream-assist response handling (`ChatInterface.tsx`,
`handleSubmit`).  The nested optional records mirror
`chunk.answer?.state`, `chunk.answer?.replies` and
`reply.groundedContent?.content?.text`. -/

structure ReplyContent where
  text : Option (List Char)

structure GroundedContent where
  content : Option ReplyContent

structure Reply where
  groundedContent : Option GroundedContent

structure Answer where
  state : Option (List Char)
  replies : Option (List Reply)

structure Chunk where
  answer : Option Answer

/-- The literal fallback string assigned when a chunk is skipped. -/
def skippedFallback : List Char :=
  "The assistant skipped this query. Try asking a more specific question.".toList

/-- The text contributed by one reply:
`reply.groundedContent?.content?.text` (an absent or empty text
contributes nothing). -/
def replyText (r : Reply) : List Char :=
  match r.groundedContent with
  | some g =>
    match g.content with
    | some ct =>
      match ct.text with
      | some t => t
      | none => []
    | none => []
  | none => []

/-- Models `chunk.answer?.state === 'SKIPPED'`. -/
def chunkSkipped (c : Chunk) : Bool :=
  match c.answer with
  | some a => a.state = some ("SKIPPED".toList)
  | none => false

/-- The chunk loop of `handleSubmit`: starting from the accumulated
`answerText`, a skipped chunk overwrites the whole accumulator with the
fallback string and breaks; otherwise the reply texts of the chunk are
appended. -/
def extractAnswerText : List Chunk → List Char → List Char
  | [], acc => acc
  | ch :: rest, acc =>
    if chunkSkipped ch then skippedFallback
    else
      match ch.answer with
      | some a =>
        match a.replies with
        | some rs =>
          extractAnswerText rest (rs.foldl (fun t r => t ++ replyText r) acc)
        | none => extractAnswerText rest acc
      | none => extractAnswerText rest acc

/-- The assistant message content rendered for a successful response:
`answerText || 'No response received'` over the chunk list (absent chunk
list contributes nothing). -/
def displayedAnswer (chunks : Option (List Chunk)) : List Char :=
  let answerText :=
    match chunks with
    | some cs => extractAnswerText cs []
    | none => []
  if answerText = [] then "No response received".toList else answerText

/-- The JavaScript whitespace characters recognised by
`String.prototype.trim` (space, tab, line terminators, vertical tab, form
feed, no-break space, LS, PS, BOM). -/
def jsWhitespaceChar (c : Char) : Bool :=
  c = ' ' || c = '\t' || c = '\n' || c = '\r' ||
  c = Char.ofNat 11 || c = Char.ofNat 12 || c = Char.ofNat 160 ||
  c = Char.ofNat 0x2028 || c = Char.ofNat 0x2029 || c = Char.ofNat 0xFEFF

def dropLeadingWs : List Char → List Char
  | [] => []
  | c :: cs => if jsWhitespaceChar c then dropLeadingWs cs else c :: cs

/-- Models `String.prototype.trim`: strip leading and trailing JS
whitespace. -/
def jsTrim (s : List Char) : List Char :=
  dropLeadingWs ((dropLeadingWs s.reverse).reverse)

/-- The observable outcome of `handleCreateNotebook` up to its first
outbound call: either a validation error is set and the handler returns,
or the `createNotebook` client function is invoked with the given
request. -/
inductive CreateNotebookAction where
  | validationError (msg : List Char) : CreateNotebookAction
  | invokeCreateNotebook (title projectNumber location : List Char) :
      CreateNotebookAction
deriving DecidableEq

/-- Models `handleCreateNotebook`: `if (!newNotebookTitle.trim())` sets
the error and returns; `if (!projectNumber)` likewise; otherwise
`createNotebook({title, project_number, location})` is called (with the
untrimmed title). -/
def handleCreateNotebook (newNotebookTitle projectNumber location : List Char) :
    CreateNotebookAction :=
  if jsTrim newNotebookTitle = [] then
    .validationError ("Please enter a notebook title".toList)
  else if projectNumber = [] then
    .validationError ("Project number is required".toList)
  else
    .invokeCreateNotebook newNotebookTitle projectNumber location

/-! Response handling of the frontend API client functions
(`src/frontend/lib/api.ts`).  Each function performs a `fetch`; the
response is modelled by its `ok` flag, status text and raw body text. -/

structure HttpResponse where
  ok : Bool
  statusText : List Char
  bodyText : List Char

/-- A JavaScript exception escaping an API client function: either a
`throw new Error(msg)` from the function body, or the `SyntaxError` of
`response.json()` on an unparsable body. -/
inductive JsError where
  | thrown (msg : List Char) : JsError
  | jsonSyntaxError : JsError

/-- Shared shape of the JSON-returning client functions: on non-OK status
throw an error whose message is the function's literal text followed by
`response.statusText`; on OK status return `response.json()`. -/
def fetchJsonResult (failMsg : List Char) (r : HttpResponse) :
    Except JsError Json :=
  if !r.ok then .error (.thrown (failMsg ++ r.statusText))
  else
    match jsonParse r.bodyText with
    | some j => .ok j
    | none => .error .jsonSyntaxError

/-- Shared shape of the `Promise<void>` client functions: like
`fetchJsonResult` but without reading the body on success. -/
def fetchVoidResult (failMsg : List Char) (r : HttpResponse) :
    Except JsError Unit :=
  if !r.ok then .error (.thrown (failMsg ++ r.statusText))
  else .ok ()

def searchResult : HttpResponse → Except JsError Json :=
  fetchJsonResult ("Search failed: ".toList)

def listAgentsResult : HttpResponse → Except JsError Json :=
  fetchJsonResult ("Failed to list agents: ".toList)

def getAgentResult : HttpResponse → Except JsError Json :=
  fetchJsonResult ("Failed to get agent: ".toList)

def converseResult : HttpResponse → Except JsError Json :=
  fetchJsonResult ("Conversation failed: ".toList)

/-- The pre-stream response check of `converseStream` (before any chunk is
read). -/
def converseStreamFetchResult : HttpResponse → Except JsError Unit :=
  fetchVoidResult ("Streaming conversation failed: ".toList)

def createNotebookResult : HttpResponse → Except JsError Json :=
  fetchJsonResult ("Failed to create notebook: ".toList)

def getNotebookResult : HttpResponse → Except JsError Json :=
  fetchJsonResult ("Failed to get notebook: ".toList)

def listRecentlyViewedNotebooksResult : HttpResponse → Except JsError Json :=
  fetchJsonResult ("Failed to list notebooks: ".toList)

def batchCreateNotebookSourcesResult : HttpResponse → Except JsError Json :=
  fetchJsonResult ("Failed to create sources: ".toList)

def getNotebookSourceResult : HttpResponse → Except JsError Json :=
  fetchJsonResult ("Failed to get source: ".toList)

def batchDeleteNotebookSourcesResult : HttpResponse → Except JsError Unit :=
  fetchVoidResult ("Failed to delete sources: ".toList)

def batchDeleteNotebooksResult : HttpResponse → Except JsError Unit :=
  fetchVoidResult ("Failed to delete notebooks: ".toList)

def shareNotebookResult : HttpResponse → Except JsError Unit :=
  fetchVoidResult ("Failed to share notebook: ".toList)

def getNotebookUrlResult : HttpResponse → Except JsError Json :=
  fetchJsonResult ("Failed to get notebook URL: ".toList)

/-- `uploadFileSource` additionally reads the response body on failure:
``throw new Error(`Failed to upload file: ${statusText} - ${errorText}`)``. -/
def uploadFileSourceResult (r : HttpResponse) : Except JsError Json :=
  if !r.ok then
    .error (.thrown ("Failed to upload file: ".toList ++ r.statusText
      ++ " - ".toList ++ r.bodyText))
  else
    match jsonParse r.bodyText with
    | some j => .ok j
    | none => .error .jsonSyntaxError

/-- The literal extension lookup table of `getContentTypeFromFileName`. -/
def contentTypesTable : List (List Char × List Char) := [
  ("pdf".toList, "application/pdf".toList),
  ("txt".toList, "text/plain".toList),
  ("md".toList, "text/markdown".toList),
  ("docx".toList,
    "application/vnd.openxmlformats-officedocument.wordprocessingml.document".toList),
  ("pptx".toList,
    "application/vnd.openxmlformats-officedocument.presentationml.presentation".toList),
  ("xlsx".toList,
    "application/vnd.openxmlformats-officedocument.spreadsheetml.sheet".toList),
  ("3g2".toList, "audio/3gpp2".toList),
  ("3gp".toList, "audio/3gpp".toList),
  ("aac".toList, "audio/aac".toList),
  ("aif".toList, "audio/aiff".toList),
  ("aifc".toList, "audio/aiff".toList),
  ("aiff".toList, "audio/aiff".toList),
  ("amr".toList, "audio/amr".toList),
  ("au".toList, "audio/basic".toList),
  ("avi".toList, "video/x-msvideo".toList),
  ("cda".toList, "application/x-cdf".toList),
  ("m4a".toList, "audio/m4a".toList),
  ("mid".toList, "audio/midi".toList),
  ("midi".toList, "audio/midi".toList),
  ("mp3".toList, "audio/mpeg".toList),
  ("mp4".toList, "video/mp4".toList),
  ("mpeg".toList, "audio/mpeg".toList),
  ("ogg".toList, "audio/ogg".toList),
  ("opus".toList, "audio/ogg".toList),
  ("ra".toList, "audio/vnd.rn-realaudio".toList),
  ("ram".toList, "audio/vnd.rn-realaudio".toList),
  ("snd".toList, "audio/basic".toList),
  ("wav".toList, "audio/wav".toList),
  ("weba".toList, "audio/webm".toList),
  ("wma".toList, "audio/x-ms-wma".toList),
  ("png".toList, "image/png".toList),
  ("jpg".toList, "image/jpg".toList),
  ("jpeg".toList, "image/jpeg".toList)]

/-- `contentTypes[ext] || 'application/octet-stream'`. -/
def contentTypesAt (ext : List Char) : List Char :=
  match contentTypesTable.lookup ext with
  | some t => t
  | none => "application/octet-stream".toList

/-- Models `getContentTypeFromFileName`:
`fileName.toLowerCase().split('.').pop()` then table lookup (JavaScript
`toLowerCase` modelled by `Char.toLower` per character; the table's keys
are ASCII). -/
def getContentTypeFromFileName (fileName : List Char) : List Char :=
  contentTypesAt ((splitCh '.' (fileName.map Char.toLower)).getLastD [])

/-- Models `file.type || getContentTypeFromFileName(file.name)`: the
declared MIME type when non-empty, else the extension fallback. -/
def uploadContentType (fileType fileName : List Char) : List Char :=
  if fileType = [] then getContentTypeFromFileName fileName else fileType

/-- Models the `file_name` query parameter value of `uploadFileSource`:
`fileExtension = file.name.split('.').pop() || ''` and
``fileExtension ? `${fileName}.${fileExtension}` : fileName``. -/
def uploadFileNameParam (fileName origName : List Char) : List Char :=
  let fileExtension := (splitCh '.' origName).getLastD []
  if fileExtension = [] then fileName else fileName ++ '.' :: fileExtension

/-- Models `getBaseUrl`. -/
def getBaseUrl (location : List Char) : List Char :=
  if location = "global".toList then
    "https://discoveryengine.googleapis.com".toList
  else
    "https://".toList ++ location
      ++ "-discoveryengine.googleapis.com".toList

/-- The `AgentspaceConfig` record persisted under the local-storage key
`agentspace-config`. -/
structure AgentspaceConfig where
  projectNumber : List Char
  location : List Char
  engineId : List Char
  assistantId : List Char
deriving DecidableEq

/-- The JSON object a stored configuration parses back to. -/
def configToJson (c : AgentspaceConfig) : Json :=
  Json.obj [("projectNumber".toList, Json.str c.projectNumber),
            ("location".toList, Json.str c.location),
            ("engineId".toList, Json.str c.engineId),
            ("assistantId".toList, Json.str c.assistantId)]

/-- The lower-case hexadecimal digit for `n < 16`. -/
def hexDigitChar (n : Nat) : Char :=
  if n < 10 then Char.ofNat ('0'.toNat + n)
  else Char.ofNat ('a'.toNat + (n - 10))

/-- One character of `JSON.stringify` string escaping: quote, backslash
and control characters are escaped (short escapes where they exist,
`\u00XX` otherwise); everything else is emitted verbatim. -/
def escapeChar (c : Char) : List Char :=
  if c = '"' then ['\\', '"']
  else if c = '\\' then ['\\', '\\']
  else if c = Char.ofNat 8 then ['\\', 'b']
  else if c = Char.ofNat 12 then ['\\', 'f']
  else if c = '\n' then ['\\', 'n']
  else if c = '\r' then ['\\', 'r']
  else if c = '\t' then ['\\', 't']
  else if c.toNat < 32 then
    ['\\', 'u', '0', '0',
      hexDigitChar (c.toNat / 16), hexDigitChar (c.toNat % 16)]
  else [c]

def escapeStr : List Char → List Char
  | [] => []
  | c :: cs => escapeChar c ++ escapeStr cs

/-- A JSON string literal: quote, escaped body, quote. -/
def strLit (s : List Char) : List Char := '"' :: escapeStr s ++ ['"']

/-- The decimal digits of an integer, as `JSON.stringify` prints one. -/
def intDigits (n : Int) : List Char :=
  if n < 0 then '-' :: Nat.toDigits 10 n.natAbs else Nat.toDigits 10 n.toNat

mutual

/-- Models the host `JSON.stringify` on the values of this embedding:
literals for `null` and booleans, decimal numerals, escaped string
literals, and comma-separated arrays and objects (members in the
object's own insertion order, no added whitespace). -/
def jsonStringify : Json → List Char
  | Json.null => "null".toList
  | Json.bool b => if b then "true".toList else "false".toList
  | Json.num n => intDigits n
  | Json.str s => strLit s
  | Json.arr es => '[' :: stringifyElems es ++ [']']
  | Json.obj ms => braceL :: stringifyMembers ms ++ [braceR]

/-- The comma-separated element list of an array. -/
def stringifyElems : List Json → List Char
  | [] => []
  | [e] => jsonStringify e
  | e :: es => jsonStringify e ++ ',' :: stringifyElems es

/-- The comma-separated member list of an object: quoted escaped key,
colon, serialized value. -/
def stringifyMembers : List (List Char × Json) → List Char
  | [] => []
  | [(k, v)] => strLit k ++ ':' :: jsonStringify v
  | (k, v) :: ms => strLit k ++ ':' :: jsonStringify v ++ ',' :: stringifyMembers ms

end

/-- A flat object's members built from string fields: the shape of the
runtime configuration object (keys and their string values, in the
object's own order). -/
def strFields (ms : List (List Char × List Char)) : List (List Char × Json) :=
  ms.map fun kv => (kv.1, Json.str kv.2)

/-- Models the save in `handleApply` of `ConfigSidebar`
(`src/frontend/components/SearchResults.tsx`):
`localStorage.setItem('agentspace-config', JSON.stringify(localConfig))`
— the stored string is the JSON serialization of the runtime
configuration object, whatever keys and order it carries. -/
def saveConfigToStorage (localConfig : Json) : List Char :=
  jsonStringify localConfig

/-- Models `loadConfigFromStorage` (`src/frontend/lib/config.ts`): read
the stored string and `JSON.parse` it; `none` models returning `null`
(nothing stored, or `JSON.parse` threw and was caught). -/
def loadConfigFromStorage (saved : Option (List Char)) : Option Json :=
  match saved with
  | none => none
  | some s => jsonParse s

/-- Is `needle` a contiguous segment of the second list? -/
def containsSeg (needle : List Char) : List Char → Bool
  | [] => needle.isEmpty
  | c :: cs => needle.isPrefixOf (c :: cs) || containsSeg needle cs

/-- One printed object member: quoted escaped key, colon, quoted escaped
value, then `tail` (a comma and further members, or the closing brace). -/
def cfgMember (k v tail : List Char) : List Char :=
  '"' :: (escapeStr k ++ '"' :: ':' :: '"' :: (escapeStr v ++ '"' :: tail))

theorem getLastD_append_single {α : Type _} (l : List α) (a d : α) :
    (l ++ [a]).getLastD d = a := by
  induction l generalizing d with
  | nil => rfl
  | cons x xs ih => rw [List.cons_append, List.getLastD_cons]; exact ih x

theorem splitCh_ne_nil (sep : Char) (s : List Char) : splitCh sep s ≠ [] := by
  cases s with
  | nil => simp [splitCh]
  | cons c cs =>
    simp only [splitCh]
    split <;> simp

theorem splitCh_cons_sep (sep : Char) (x : List Char) :
    splitCh sep (sep :: x) = [] :: splitCh sep x := by
  simp [splitCh]

theorem splitCh_cons_ne (sep c : Char) (x : List Char) (hc : c ≠ sep) :
    splitCh sep (c :: x)
      = (c :: (splitCh sep x).headI) :: (splitCh sep x).tail := by
  simp [splitCh, hc]

theorem splitCh_eq_completeSegs_append (sep : Char) (x : List Char) :
    splitCh sep x = completeSegs sep x ++ [pendingSeg sep x] := by
  have h := splitCh_ne_nil sep x
  unfold completeSegs pendingSeg
  cases hx : splitCh sep x with
  | nil => exact absurd hx h
  | cons a l =>
    clear h hx
    induction l generalizing a with
    | nil => simp
    | cons b l ih => simpa using ih b

theorem completeSegs_nil (sep : Char) : completeSegs sep [] = [] := by
  simp [completeSegs, splitCh]

theorem pendingSeg_nil (sep : Char) : pendingSeg sep [] = [] := by
  simp [pendingSeg, splitCh]

theorem completeSegs_cons_sep (sep : Char) (x : List Char) :
    completeSegs sep (sep :: x) = [] :: completeSegs sep x := by
  have h := splitCh_ne_nil sep x
  simp only [completeSegs, splitCh, if_pos rfl]
  cases hx : splitCh sep x with
  | nil => exact absurd hx h
  | cons a l => simp

theorem pendingSeg_cons_sep (sep : Char) (x : List Char) :
    pendingSeg sep (sep :: x) = pendingSeg sep x := by
  have h := splitCh_ne_nil sep x
  simp only [pendingSeg, splitCh, if_pos rfl]
  cases hx : splitCh sep x with
  | nil => exact absurd hx h
  | cons a l => simp [List.getLastD_cons]

theorem splitCh_cons_ne_of_nil (sep c : Char) (x : List Char)
    (hc : c ≠ sep) (h : completeSegs sep x = []) :
    splitCh sep (c :: x) = [c :: pendingSeg sep x] := by
  have hsplit := splitCh_eq_completeSegs_append sep x
  rw [h, List.nil_append] at hsplit
  rw [splitCh_cons_ne sep c x hc, hsplit]
  rfl

theorem splitCh_cons_ne_of_cons (sep c : Char) (x : List Char)
    (hc : c ≠ sep) (f : List Char) (fs : List (List Char))
    (h : completeSegs sep x = f :: fs) :
    splitCh sep (c :: x) = ((c :: f) :: fs) ++ [pendingSeg sep x] := by
  have hsplit := splitCh_eq_completeSegs_append sep x
  rw [h] at hsplit
  rw [splitCh_cons_ne sep c x hc, hsplit]
  rfl

theorem completeSegs_cons_ne_of_nil (sep c : Char) (x : List Char)
    (hc : c ≠ sep) (h : completeSegs sep x = []) :
    completeSegs sep (c :: x) = [] := by
  unfold completeSegs
  rw [splitCh_cons_ne_of_nil sep c x hc h]
  rfl

theorem pendingSeg_cons_ne_of_nil (sep c : Char) (x : List Char)
    (hc : c ≠ sep) (h : completeSegs sep x = []) :
    pendingSeg sep (c :: x) = c :: pendingSeg sep x := by
  unfold pendingSeg
  rw [splitCh_cons_ne_of_nil sep c x hc h]
  rfl

theorem completeSegs_cons_ne_of_cons (sep c : Char) (x : List Char)
    (hc : c ≠ sep) (f : List Char) (fs : List (List Char))
    (h : completeSegs sep x = f :: fs) :
    completeSegs sep (c :: x) = (c :: f) :: fs := by
  unfold completeSegs
  rw [splitCh_cons_ne_of_cons sep c x hc f fs h, List.dropLast_concat]

theorem pendingSeg_cons_ne_of_cons (sep c : Char) (x : List Char)
    (hc : c ≠ sep) (f : List Char) (fs : List (List Char))
    (h : completeSegs sep x = f :: fs) :
    pendingSeg sep (c :: x) = pendingSeg sep x := by
  unfold pendingSeg
  rw [splitCh_cons_ne_of_cons sep c x hc f fs h,
    getLastD_append_single]
  rfl

/-- Chunk-boundary invariance of line buffering: the complete lines of a
concatenation are the complete lines of the first part followed by the
complete lines of the retained trailing segment glued to the second part,
and the retained segments agree likewise. -/
theorem completeSegs_pendingSeg_append (sep : Char) :
    ∀ a b : List Char,
      completeSegs sep (a ++ b)
        = completeSegs sep a ++ completeSegs sep (pendingSeg sep a ++ b) ∧
      pendingSeg sep (a ++ b) = pendingSeg sep (pendingSeg sep a ++ b) := by
  intro a
  induction a with
  | nil =>
    intro b
    simp [completeSegs_nil, pendingSeg_nil]
  | cons c cs ih =>
    intro b
    by_cases hc : c = sep
    · subst hc
      constructor
      · rw [List.cons_append, completeSegs_cons_sep, completeSegs_cons_sep,
          pendingSeg_cons_sep, (ih b).1]
        simp
      · rw [List.cons_append, pendingSeg_cons_sep, pendingSeg_cons_sep,
          (ih b).2]
    · cases hcs : completeSegs sep (cs ++ b) with
      | nil =>
        have hcs' : completeSegs sep cs = [] := by
          rcases h : completeSegs sep cs with _ | ⟨f, fs⟩
          · rfl
          · exfalso
            rw [(ih b).1, h] at hcs
            simp at hcs
        have hps : completeSegs sep (pendingSeg sep cs ++ b) = [] := by
          have := (ih b).1
          rw [hcs', hcs] at this
          simpa using this.symm
        constructor
        · rw [List.cons_append,
            completeSegs_cons_ne_of_nil sep c (cs ++ b) hc hcs,
            completeSegs_cons_ne_of_nil sep c cs hc hcs',
            pendingSeg_cons_ne_of_nil sep c cs hc hcs']
          rw [List.cons_append,
            completeSegs_cons_ne_of_nil sep c (pendingSeg sep cs ++ b) hc hps]
          simp
        · rw [List.cons_append,
            pendingSeg_cons_ne_of_nil sep c (cs ++ b) hc hcs,
            pendingSeg_cons_ne_of_nil sep c cs hc hcs']
          rw [List.cons_append,
            pendingSeg_cons_ne_of_nil sep c (pendingSeg sep cs ++ b) hc hps,
            (ih b).2]
      | cons f fs =>
        rcases h : completeSegs sep cs with _ | ⟨g, gs⟩
        · -- first complete line of `cs ++ b` crosses the boundary
          have hps : completeSegs sep (pendingSeg sep cs ++ b) = f :: fs := by
            have := (ih b).1
            rw [h, hcs] at this
            simpa using this.symm
          constructor
          · rw [List.cons_append,
              completeSegs_cons_ne_of_cons sep c (cs ++ b) hc f fs hcs,
              completeSegs_cons_ne_of_nil sep c cs hc h,
              pendingSeg_cons_ne_of_nil sep c cs hc h]
            rw [List.cons_append,
              completeSegs_cons_ne_of_cons sep c (pendingSeg sep cs ++ b) hc
                f fs hps]
            simp
          · rw [List.cons_append,
              pendingSeg_cons_ne_of_cons sep c (cs ++ b) hc f fs hcs,
              pendingSeg_cons_ne_of_nil sep c cs hc h]
            rw [List.cons_append,
              pendingSeg_cons_ne_of_cons sep c (pendingSeg sep cs ++ b) hc
                f fs hps, (ih b).2]
        · -- first complete line already closed inside `cs`
          have hfg : f = g ∧ fs = gs ++ completeSegs sep (pendingSeg sep cs ++ b) := by
            have := (ih b).1
            rw [h, hcs] at this
            simp at this
            exact ⟨this.1, this.2⟩
          constructor
          · rw [List.cons_append,
              completeSegs_cons_ne_of_cons sep c (cs ++ b) hc f fs hcs,
              completeSegs_cons_ne_of_cons sep c cs hc g gs h,
              pendingSeg_cons_ne_of_cons sep c cs hc g gs h]
            rw [hfg.1, hfg.2]
            simp
          · rw [List.cons_append,
              pendingSeg_cons_ne_of_cons sep c (cs ++ b) hc f fs hcs,
              pendingSeg_cons_ne_of_cons sep c cs hc g gs h, (ih b).2]

/-! Further helper lemmas about segment splitting. -/

theorem completeSegs_pendingSeg_of_not_mem (sep : Char) :
    ∀ x : List Char, sep ∉ x →
      completeSegs sep x = [] ∧ pendingSeg sep x = x := by
  intro x
  induction x with
  | nil => intro _; exact ⟨completeSegs_nil sep, pendingSeg_nil sep⟩
  | cons c cs ih =>
    intro h
    have hc : c ≠ sep := fun hc => h (hc ▸ List.mem_cons_self c cs)
    have hcs : sep ∉ cs := fun hm => h (List.mem_cons_of_mem c hm)
    refine ⟨completeSegs_cons_ne_of_nil sep c cs hc (ih hcs).1, ?_⟩
    rw [pendingSeg_cons_ne_of_nil sep c cs hc (ih hcs).1, (ih hcs).2]

theorem completeSegs_ne_nil_of_mem (sep : Char) :
    ∀ x : List Char, sep ∈ x → completeSegs sep x ≠ [] := by
  intro x
  induction x with
  | nil => intro h; exact absurd h (List.not_mem_nil sep)
  | cons c cs ih =>
    intro h
    by_cases hc : c = sep
    · subst hc
      rw [completeSegs_cons_sep]
      simp
    · have hcs : sep ∈ cs := by
        rcases List.mem_cons.mp h with h1 | h2
        · exact absurd h1.symm hc
        · exact h2
      rcases hsegs : completeSegs sep cs with _ | ⟨f, fs⟩
      · exact absurd hsegs (ih hcs)
      · rw [completeSegs_cons_ne_of_cons sep c cs hc f fs hsegs]
        simp

theorem pendingSeg_not_mem (sep : Char) :
    ∀ x : List Char, sep ∉ pendingSeg sep x := by
  intro x
  induction x with
  | nil => rw [pendingSeg_nil]; exact List.not_mem_nil sep
  | cons c cs ih =>
    by_cases hc : c = sep
    · subst hc; rw [pendingSeg_cons_sep]; exact ih
    · rcases hsegs : completeSegs sep cs with _ | ⟨f, fs⟩
      · rw [pendingSeg_cons_ne_of_nil sep c cs hc hsegs]
        intro hmem
        rcases List.mem_cons.mp hmem with h1 | h2
        · exact hc h1.symm
        · exact ih h2
      · rw [pendingSeg_cons_ne_of_cons sep c cs hc f fs hsegs]
        exact ih

theorem pendingSeg_append_cons_sep (sep : Char) :
    ∀ (y b : List Char), sep ∉ y →
      pendingSeg sep (y ++ sep :: b) = pendingSeg sep b := by
  intro y
  induction y with
  | nil => intro b _; rw [List.nil_append, pendingSeg_cons_sep]
  | cons c ys ih =>
    intro b h
    have hc : c ≠ sep := fun hc => h (hc ▸ List.mem_cons_self c ys)
    have hys : sep ∉ ys := fun hm => h (List.mem_cons_of_mem c hm)
    have hmem : sep ∈ ys ++ sep :: b := by
      exact List.mem_append.mpr (Or.inr (List.mem_cons_self sep b))
    rcases hsegs : completeSegs sep (ys ++ sep :: b) with _ | ⟨f, fs⟩
    · exact absurd hsegs (completeSegs_ne_nil_of_mem sep _ hmem)
    · rw [List.cons_append,
        pendingSeg_cons_ne_of_cons sep c _ hc f fs hsegs]
      exact ih b hys

theorem pendingSeg_append_sep (sep : Char) (a b : List Char) :
    pendingSeg sep (a ++ sep :: b) = pendingSeg sep b := by
  rw [(completeSegs_pendingSeg_append sep a (sep :: b)).2,
    pendingSeg_append_cons_sep sep (pendingSeg sep a) b
      (pendingSeg_not_mem sep a)]

/-- `Char.toLower` maps only `'.'` to `'.'`. -/
theorem toLower_eq_dot {c : Char} (h : c.toLower = '.') : c = '.' := by
  by_cases hcond : c.toNat ≥ 65 ∧ c.toNat ≤ 90
  · exfalso
    have h' : Char.ofNat (c.toNat + 32) = '.' := by
      unfold Char.toLower at h
      simpa [hcond] using h
    have htn := congrArg Char.toNat h'
    obtain ⟨h1, h2⟩ := hcond
    set n := Char.toNat c with hn
    interval_cases n <;> exact absurd htn (by decide)
  · unfold Char.toLower at h
    simpa [hcond] using h

theorem not_mem_map_toLower_dot {post : List Char} (h : '.' ∉ post) :
    '.' ∉ post.map Char.toLower := by
  intro hmem
  rcases List.mem_map.mp hmem with ⟨c, hc, hlow⟩
  exact h (toLower_eq_dot hlow ▸ hc)

/-- C8: `getBaseUrl` maps `'global'` to the bare Discovery Engine host and
every other location `l` to `https://{l}-discoveryengine.googleapis.com`;
in particular `getBaseUrl('us')` is the `us-` host. -/
theorem c8_getBaseUrl :
    getBaseUrl ("global".toList)
      = "https://discoveryengine.googleapis.com".toList ∧
    (∀ l : List Char, l ≠ "global".toList →
      getBaseUrl l = "https://".toList ++ l
        ++ "-discoveryengine.googleapis.com".toList) ∧
    getBaseUrl ("us".toList)
      = "https://us-discoveryengine.googleapis.com".toList := by
  refine ⟨rfl, ?_, rfl⟩
  intro l hl
  unfold getBaseUrl
  rw [if_neg hl]

/-- Witness for C8 at the concrete location `'eu'`. -/
theorem c8_getBaseUrl_witness :
    getBaseUrl ("eu".toList) = "https://".toList ++ "eu".toList
      ++ "-discoveryengine.googleapis.com".toList :=
  c8_getBaseUrl.2.1 ("eu".toList) (by decide)

/-- C9 (counterexample): the original file name `notes.` is non-empty,
yet the uploaded `file_name` parameter is the unmodified display name
`doc`, not the display name, a dot and the (empty) last dot-delimited
segment. -/
theorem c9_counterexample :
    ("notes.".toList ≠ ([] : List Char)) ∧
    uploadFileNameParam ("doc".toList) ("notes.".toList) = "doc".toList ∧
    uploadFileNameParam ("doc".toList) ("notes.".toList)
      ≠ "doc".toList ++ '.' :: (splitCh '.' ("notes.".toList)).getLastD [] := by
  exact ⟨by decide, rfl, by decide⟩

/-- C9 (amended): the `file_name` parameter appends a dot and the last
dot-delimited segment of the original name exactly when that segment is
non-empty; for a dotless non-empty original name the whole name is the
segment (`doc` + `notes` gives `doc.notes`); when the last segment is
empty (the empty name, or a name ending in `'.'`) the display name is
sent unmodified. -/
theorem c9_upload_file_name :
    (∀ disp orig : List Char, pendingSeg '.' orig = [] →
      uploadFileNameParam disp orig = disp) ∧
    (∀ disp orig : List Char, pendingSeg '.' orig ≠ [] →
      uploadFileNameParam disp orig = disp ++ '.' :: pendingSeg '.' orig) ∧
    (∀ disp orig : List Char, '.' ∉ orig → orig ≠ [] →
      uploadFileNameParam disp orig = disp ++ '.' :: orig) ∧
    uploadFileNameParam ("doc".toList) ("notes".toList)
      = "doc.notes".toList := by
  have hdef : ∀ disp orig : List Char,
      uploadFileNameParam disp orig
        = if pendingSeg '.' orig = [] then disp
          else disp ++ '.' :: pendingSeg '.' orig := by
    intro disp orig; rfl
  refine ⟨?_, ?_, ?_, rfl⟩
  · intro disp orig h; rw [hdef, if_pos h]
  · intro disp orig h; rw [hdef, if_neg h]
  · intro disp orig hdot hne
    have hp := (completeSegs_pendingSeg_of_not_mem '.' orig hdot).2
    rw [hdef, hp, if_neg hne]

/-- Witness for C9's amended theorem: a whitespace-free dotless name. -/
theorem c9_upload_file_name_witness :
    uploadFileNameParam ("slides".toList) ("deck".toList)
      = "slides".toList ++ '.' :: "deck".toList :=
  c9_upload_file_name.2.2.1 ("slides".toList) ("deck".toList)
    (by decide) (by decide)

/-- C5: with an absent (empty) declared MIME type the upload content type
falls back to `getContentTypeFromFileName`, whose lookup key is the last
dot-delimited segment of the lowercased file name; in particular
`report.final.pdf` resolves to `application/pdf`. -/
theorem c5_content_type_fallback :
    (∀ name : List Char,
      uploadContentType [] name = getContentTypeFromFileName name) ∧
    (∀ pre post : List Char, '.' ∉ post →
      getContentTypeFromFileName (pre ++ '.' :: post)
        = contentTypesAt (post.map Char.toLower)) ∧
    uploadContentType [] ("report.final.pdf".toList)
      = "application/pdf".toList := by
  refine ⟨fun name => rfl, ?_, rfl⟩
  intro pre post hdot
  show contentTypesAt
      ((splitCh '.' ((pre ++ '.' :: post).map Char.toLower)).getLastD [])
    = contentTypesAt (post.map Char.toLower)
  have hmap : (pre ++ '.' :: post).map Char.toLower
      = pre.map Char.toLower ++ '.' :: post.map Char.toLower := by
    rw [List.map_append, List.map_cons]
    norm_num [show Char.toLower '.' = '.' from by decide]
  have hlast : (splitCh '.' ((pre ++ '.' :: post).map Char.toLower)).getLastD []
      = pendingSeg '.' ((pre ++ '.' :: post).map Char.toLower) := rfl
  rw [hlast, hmap, pendingSeg_append_sep,
    (completeSegs_pendingSeg_of_not_mem '.' (post.map Char.toLower)
      (not_mem_map_toLower_dot hdot)).2]

/-- Witness for C5 at the claim's own input. -/
theorem c5_content_type_fallback_witness :
    getContentTypeFromFileName ("report.final".toList ++ '.' :: "pdf".toList)
      = contentTypesAt ("pdf".toList.map Char.toLower) :=
  c5_content_type_fallback.2.1 ("report.final".toList) ("pdf".toList)
    (by decide)

/-- All-whitespace strings trim to the empty string. -/
theorem dropLeadingWs_eq_nil {s : List Char}
    (h : ∀ c ∈ s, jsWhitespaceChar c = true) : dropLeadingWs s = [] := by
  induction s with
  | nil => rfl
  | cons c cs ih =>
    simp only [dropLeadingWs, h c (List.mem_cons_self c cs), if_true]
    exact ih fun d hd => h d (List.mem_cons_of_mem c hd)

theorem jsTrim_eq_nil {s : List Char}
    (h : ∀ c ∈ s, jsWhitespaceChar c = true) : jsTrim s = [] := by
  unfold jsTrim
  rw [dropLeadingWs_eq_nil fun c hc => h c (List.mem_reverse.mp hc)]
  rfl

/-- C3: a title that trims to the empty string (so the empty title and
every whitespace-only title) makes `handleCreateNotebook` set the
validation error and return; the `createNotebook` client function is not
invoked. -/
theorem c3_empty_title_rejected (title projectNumber location : List Char)
    (h : ∀ c ∈ title, jsWhitespaceChar c = true) :
    handleCreateNotebook title projectNumber location
      = CreateNotebookAction.validationError
          ("Please enter a notebook title".toList) ∧
    (∀ t p l : List Char,
      handleCreateNotebook title projectNumber location
        ≠ CreateNotebookAction.invokeCreateNotebook t p l) := by
  have htrim := jsTrim_eq_nil h
  constructor
  · simp [handleCreateNotebook, htrim]
  · intro t p l
    simp [handleCreateNotebook, htrim]

/-- Witness for C3: a whitespace-only title with a configured project. -/
theorem c3_empty_title_rejected_witness :
    handleCreateNotebook ("   ".toList) ("123456".toList) ("us".toList)
      = CreateNotebookAction.validationError
          ("Please enter a notebook title".toList) :=
  (c3_empty_title_rejected ("   ".toList) ("123456".toList) ("us".toList)
    (by decide)).1

/-- Once some chunk of the list is marked skipped, the chunk loop ends in
the fallback string regardless of the accumulated text. -/
theorem extractAnswerText_of_skipped :
    ∀ chunks : List Chunk, (∃ ch ∈ chunks, chunkSkipped ch = true) →
      ∀ acc : List Char, extractAnswerText chunks acc = skippedFallback := by
  intro chunks
  induction chunks with
  | nil => intro h; exact absurd h (by simp)
  | cons c rest ih =>
    intro h acc
    by_cases hc : chunkSkipped c = true
    · simp only [extractAnswerText, hc, if_true]
    · have hrest : ∃ x ∈ rest, chunkSkipped x = true := by
        rcases h with ⟨ch, hmem, hsk⟩
        rcases List.mem_cons.mp hmem with h1 | h2
        · exact absurd (h1 ▸ hsk) hc
        · exact ⟨ch, h2, hsk⟩
      rcases hca : c.answer with _ | a
      · simp only [extractAnswerText, hc, hca]
        exact ih hrest acc
      · rcases hra : a.replies with _ | rs
        · simp only [extractAnswerText, hc, hca, hra]
          exact ih hrest acc
        · simp only [extractAnswerText, hc, hca, hra]
          exact ih hrest _

/-- C1: if any chunk of the stream-assist response is marked
`answer.state == 'SKIPPED'`, the extracted answer is exactly the literal
fallback string whatever text was accumulated before (earlier reply text
is discarded, later chunks are never reached), and the rendered assistant
message is exactly that fallback. -/
theorem c1_skipped_chunk_fallback (chunks : List Chunk)
    (h : ∃ ch ∈ chunks, chunkSkipped ch = true) :
    (∀ acc : List Char, extractAnswerText chunks acc = skippedFallback) ∧
    displayedAnswer (some chunks) = skippedFallback := by
  refine ⟨extractAnswerText_of_skipped chunks h, ?_⟩
  show (if extractAnswerText chunks [] = [] then "No response received".toList
    else extractAnswerText chunks []) = skippedFallback
  rw [extractAnswerText_of_skipped chunks h []]
  rw [if_neg (by decide : ¬(skippedFallback = []))]

/-- Witness for C1: a response whose first chunk accumulated reply text
and whose second chunk is skipped. -/
theorem c1_skipped_chunk_fallback_witness :
    displayedAnswer (some
      [⟨some ⟨some ("SUCCEEDED".toList),
         some [⟨some ⟨some ⟨some ("partial answer".toList)⟩⟩⟩]⟩⟩,
       ⟨some ⟨some ("SKIPPED".toList), none⟩⟩]) = skippedFallback :=
  (c1_skipped_chunk_fallback
    [⟨some ⟨some ("SUCCEEDED".toList),
       some [⟨some ⟨some ⟨some ("partial answer".toList)⟩⟩⟩]⟩⟩,
     ⟨some ⟨some ("SKIPPED".toList), none⟩⟩]
    ⟨⟨some ⟨some ("SKIPPED".toList), none⟩⟩, by simp, by decide⟩).2

/-- C4 (counterexample): on a non-success status the batch delete of
notebooks throws an error message built from the status text only — the
raw error body (here a quota detail naming `n2`) is not read and does not
occur anywhere in what the caller receives, refuting the claim that the
raw error body is carried to the caller. -/
theorem c4_counterexample :
    batchDeleteNotebooksResult
      ⟨false, "Internal Server Error".toList,
        "quota exceeded for notebook n2".toList⟩
      = Except.error (JsError.thrown
          ("Failed to delete notebooks: Internal Server Error".toList)) ∧
    containsSeg ("quota exceeded for notebook n2".toList)
      ("Failed to delete notebooks: Internal Server Error".toList) = false := by
  exact ⟨rfl, by decide⟩

/-- C4 (amended): a non-success status from the collaborator surfaces as
a single thrown error whose message is the literal prefix followed by the
response's status text (not the error body); no per-item partial-success
value is produced — the caller never receives a success value. -/
theorem c4_batch_delete_failure (r : HttpResponse) (h : r.ok = false) :
    batchDeleteNotebooksResult r
      = Except.error (JsError.thrown
          ("Failed to delete notebooks: ".toList ++ r.statusText)) ∧
    (∀ u : Unit, batchDeleteNotebooksResult r ≠ Except.ok u) := by
  constructor
  · simp [batchDeleteNotebooksResult, fetchVoidResult, h]
  · intro u
    simp [batchDeleteNotebooksResult, fetchVoidResult, h]

/-- Witness for C4's amended theorem. -/
theorem c4_batch_delete_failure_witness :
    batchDeleteNotebooksResult ⟨false, "Bad Request".toList, "irrelevant".toList⟩
      = Except.error (JsError.thrown
          ("Failed to delete notebooks: ".toList ++ "Bad Request".toList)) :=
  (c4_batch_delete_failure
    ⟨false, "Bad Request".toList, "irrelevant".toList⟩ rfl).1

/-- C7: every frontend API client function throws on a non-OK response an
error whose message carries the response's status text (the upload
function additionally the raw body text), and on an OK response whose
body parses it returns the parsed JSON body (`()` for the
`Promise<void>` functions); no function returns a success value on a
non-OK status (the stated equalities are `Except.error` values). -/
theorem c7_client_error_handling (r : HttpResponse) :
    (r.ok = false →
      searchResult r = Except.error (JsError.thrown
        ("Search failed: ".toList ++ r.statusText)) ∧
      listAgentsResult r = Except.error (JsError.thrown
        ("Failed to list agents: ".toList ++ r.statusText)) ∧
      getAgentResult r = Except.error (JsError.thrown
        ("Failed to get agent: ".toList ++ r.statusText)) ∧
      converseResult r = Except.error (JsError.thrown
        ("Conversation failed: ".toList ++ r.statusText)) ∧
      converseStreamFetchResult r = Except.error (JsError.thrown
        ("Streaming conversation failed: ".toList ++ r.statusText)) ∧
      createNotebookResult r = Except.error (JsError.thrown
        ("Failed to create notebook: ".toList ++ r.statusText)) ∧
      getNotebookResult r = Except.error (JsError.thrown
        ("Failed to get notebook: ".toList ++ r.statusText)) ∧
      listRecentlyViewedNotebooksResult r = Except.error (JsError.thrown
        ("Failed to list notebooks: ".toList ++ r.statusText)) ∧
      batchCreateNotebookSourcesResult r = Except.error (JsError.thrown
        ("Failed to create sources: ".toList ++ r.statusText)) ∧
      getNotebookSourceResult r = Except.error (JsError.thrown
        ("Failed to get source: ".toList ++ r.statusText)) ∧
      batchDeleteNotebookSourcesResult r = Except.error (JsError.thrown
        ("Failed to delete sources: ".toList ++ r.statusText)) ∧
      batchDeleteNotebooksResult r = Except.error (JsError.thrown
        ("Failed to delete notebooks: ".toList ++ r.statusText)) ∧
      shareNotebookResult r = Except.error (JsError.thrown
        ("Failed to share notebook: ".toList ++ r.statusText)) ∧
      getNotebookUrlResult r = Except.error (JsError.thrown
        ("Failed to get notebook URL: ".toList ++ r.statusText)) ∧
      uploadFileSourceResult r = Except.error (JsError.thrown
        ("Failed to upload file: ".toList ++ r.statusText
          ++ " - ".toList ++ r.bodyText))) ∧
    (∀ j : Json, r.ok = true → jsonParse r.bodyText = some j →
      searchResult r = Except.ok j ∧
      listAgentsResult r = Except.ok j ∧
      getAgentResult r = Except.ok j ∧
      converseResult r = Except.ok j ∧
      converseStreamFetchResult r = Except.ok () ∧
      createNotebookResult r = Except.ok j ∧
      getNotebookResult r = Except.ok j ∧
      listRecentlyViewedNotebooksResult r = Except.ok j ∧
      batchCreateNotebookSourcesResult r = Except.ok j ∧
      getNotebookSourceResult r = Except.ok j ∧
      batchDeleteNotebookSourcesResult r = Except.ok () ∧
      batchDeleteNotebooksResult r = Except.ok () ∧
      shareNotebookResult r = Except.ok () ∧
      getNotebookUrlResult r = Except.ok j ∧
      uploadFileSourceResult r = Except.ok j) := by
  constructor
  · intro h
    refine ⟨?_, ?_, ?_, ?_, ?_, ?_, ?_, ?_, ?_, ?_, ?_, ?_, ?_, ?_, ?_⟩ <;>
      simp [searchResult, listAgentsResult, getAgentResult, converseResult,
        converseStreamFetchResult, createNotebookResult, getNotebookResult,
        listRecentlyViewedNotebooksResult, batchCreateNotebookSourcesResult,
        getNotebookSourceResult, batchDeleteNotebookSourcesResult,
        batchDeleteNotebooksResult, shareNotebookResult, getNotebookUrlResult,
        uploadFileSourceResult, fetchJsonResult, fetchVoidResult, h]
  · intro j h hj
    refine ⟨?_, ?_, ?_, ?_, ?_, ?_, ?_, ?_, ?_, ?_, ?_, ?_, ?_, ?_, ?_⟩ <;>
      simp [searchResult, listAgentsResult, getAgentResult, converseResult,
        converseStreamFetchResult, createNotebookResult, getNotebookResult,
        listRecentlyViewedNotebooksResult, batchCreateNotebookSourcesResult,
        getNotebookSourceResult, batchDeleteNotebookSourcesResult,
        batchDeleteNotebooksResult, shareNotebookResult, getNotebookUrlResult,
        uploadFileSourceResult, fetchJsonResult, fetchVoidResult, h, hj]

/-- Witness for C7: a failing response and a succeeding response carrying
the JSON number `1`. -/
theorem c7_client_error_handling_witness :
    searchResult ⟨false, "Bad Request".toList, [] ⟩
      = Except.error (JsError.thrown
          ("Search failed: ".toList ++ "Bad Request".toList)) ∧
    uploadFileSourceResult ⟨true, "OK".toList, "1".toList⟩
      = Except.ok (Json.num 1) :=
  ⟨((c7_client_error_handling ⟨false, "Bad Request".toList, []⟩).1 rfl).1,
   ((c7_client_error_handling ⟨true, "OK".toList, "1".toList⟩).2
      (Json.num 1) rfl rfl).2.2.2.2.2.2.2.2.2.2.2.2.2.2⟩

/-! Structural lemmas about the stream line processor. -/

theorem processLines_nil : processLines [] = ([], false) := rfl

theorem processLines_append (A B : List (List Char)) :
    processLines (A ++ B)
      = if (processLines A).2 then processLines A
        else ((processLines A).1 ++ (processLines B).1, (processLines B).2) := by
  induction A with
  | nil => simp [processLines_nil]
  | cons l ls ih =>
    by_cases hp : sseMarker.isPrefixOf l = true
    · rcases hj : jsonParse (l.drop 6) with _ | p
      · simpa [List.cons_append, processLines, hp, hj] using ih
      · by_cases ht : isTerminalPayload p = true
        · simp [List.cons_append, processLines, hp, hj, ht]
        · rcases h2 : (processLines ls).2 with _ | _
          · simp [List.cons_append, processLines, hp, hj, ht, ih, h2]
          · simp [List.cons_append, processLines, hp, hj, ht, ih, h2]
    · simpa [List.cons_append, processLines, hp] using ih

theorem streamLoop_cons (chunk : List Char) (rest : List (List Char))
    (buf : List Char) :
    streamLoop (chunk :: rest) buf
      = if (processLines (completeSegs '\n' (buf ++ chunk))).2 then
          processLines (completeSegs '\n' (buf ++ chunk))
        else
          ((processLines (completeSegs '\n' (buf ++ chunk))).1
             ++ (streamLoop rest (pendingSeg '\n' (buf ++ chunk))).1,
           (streamLoop rest (pendingSeg '\n' (buf ++ chunk))).2) := rfl

/-- Buffer invariance: splitting one read chunk into two at any point
does not change what the generator yields. -/
theorem streamLoop_chunk_boundary (c1 c2 : List Char)
    (rest : List (List Char)) (buf : List Char) :
    streamLoop (c1 :: c2 :: rest) buf
      = streamLoop ((c1 ++ c2) :: rest) buf := by
  have hsegs := completeSegs_pendingSeg_append '\n' (buf ++ c1) c2
  have hassoc : buf ++ (c1 ++ c2) = (buf ++ c1) ++ c2 :=
    (List.append_assoc buf c1 c2).symm
  rw [streamLoop_cons, streamLoop_cons, streamLoop_cons, hassoc,
    hsegs.1, hsegs.2, processLines_append]
  rcases hA : (processLines (completeSegs '\n' (buf ++ c1))).2 with _ | _
  · rcases hB : (processLines (completeSegs '\n'
        (pendingSeg '\n' (buf ++ c1) ++ c2))).2 with _ | _
    · simp [hA, hB, List.append_assoc]
    · simp [hA, hB]
  · simp [hA]

/-- Early return: once the generator has returned through a terminal
payload, later chunks contribute nothing. -/
theorem streamLoop_terminated_append :
    ∀ (chunks rest : List (List Char)) (buf : List Char),
      (streamLoop chunks buf).2 = true →
      streamLoop (chunks ++ rest) buf = streamLoop chunks buf := by
  intro chunks
  induction chunks with
  | nil => intro rest buf h; simp [streamLoop] at h
  | cons c cs ih =>
    intro rest buf h
    rw [List.cons_append, streamLoop_cons]
    rw [streamLoop_cons] at h ⊢
    rcases hA : (processLines (completeSegs '\n' (buf ++ c))).2 with _ | _
    · rw [if_neg (by simp [hA])] at h ⊢
      have h2 : (streamLoop cs (pendingSeg '\n' (buf ++ c))).2 = true := by
        simpa [hA] using h
      rw [ih rest (pendingSeg '\n' (buf ++ c)) h2]
      simp [hA]
    · rw [if_pos (by simp [hA])] at h ⊢
      simp [hA]

/-- C2: `converseStream` buffers partial lines across read boundaries
(splitting one chunk in two never changes the yields), yields one parsed
JSON object per complete line prefixed with `data: `, stops immediately
after a terminal payload (later chunks contribute nothing; a complete
`data: ` line whose payload has `type` `done`/`error` is the last yield),
and on the two-chunk stream
`data: {"type":"partial","v":1}\n` / `data: {"type":"done"}\n` yields
exactly the two parsed objects and returns after the second. -/
theorem c2_converse_stream :
    (∀ (c1 c2 : List Char) (rest : List (List Char)) (buf : List Char),
      streamLoop (c1 :: c2 :: rest) buf
        = streamLoop ((c1 ++ c2) :: rest) buf) ∧
    (∀ (chunks rest : List (List Char)) (buf : List Char),
      (streamLoop chunks buf).2 = true →
      streamLoop (chunks ++ rest) buf = streamLoop chunks buf) ∧
    (∀ (l : List Char) (ls : List (List Char)) (p : Json),
      sseMarker.isPrefixOf l = true → jsonParse (l.drop 6) = some p →
      isTerminalPayload p = false →
      processLines (l :: ls) = (p :: (processLines ls).1, (processLines ls).2)) ∧
    (∀ (l : List Char) (ls : List (List Char)) (p : Json),
      sseMarker.isPrefixOf l = true → jsonParse (l.drop 6) = some p →
      isTerminalPayload p = true → processLines (l :: ls) = ([p], true)) ∧
    converseStream
      ["data: \x7b\"type\":\"partial\",\"v\":1\x7d\n".toList,
       "data: \x7b\"type\":\"done\"\x7d\n".toList]
      = ([Json.obj [("type".toList, Json.str "partial".toList),
                    ("v".toList, Json.num 1)],
          Json.obj [("type".toList, Json.str "done".toList)]], true) := by
  refine ⟨streamLoop_chunk_boundary, streamLoop_terminated_append, ?_, ?_, rfl⟩
  · intro l ls p hp hj ht
    simp [processLines, hp, hj, ht]
  · intro l ls p hp hj ht
    simp [processLines, hp, hj, ht]

/-- Witness for C2: appending a later chunk after the terminal `done`
payload leaves the result unchanged. -/
theorem c2_converse_stream_witness :
    streamLoop (["data: \x7b\"type\":\"done\"\x7d\n".toList]
        ++ ["data: \x7b\"v\":2\x7d\n".toList]) []
      = streamLoop ["data: \x7b\"type\":\"done\"\x7d\n".toList] [] :=
  c2_converse_stream.2.1 ["data: \x7b\"type\":\"done\"\x7d\n".toList]
    ["data: \x7b\"v\":2\x7d\n".toList] [] (by rfl)

/-- C10: a complete line that does not start with `data: ` is never
yielded, a `data: ` line whose remainder `JSON.parse` rejects is skipped
without throwing and without ending the generator, and later valid
`data: ` lines of the same stream are still parsed and yielded — on the
concrete stream `garbage\ndata: notjson\ndata: {"type":"done"}\n` exactly
the final payload is yielded. -/
theorem c10_malformed_lines :
    (∀ (l : List Char) (ls : List (List Char)),
      sseMarker.isPrefixOf l = false → processLines (l :: ls) = processLines ls) ∧
    (∀ (l : List Char) (ls : List (List Char)),
      sseMarker.isPrefixOf l = true → jsonParse (l.drop 6) = none →
      processLines (l :: ls) = processLines ls) ∧
    converseStream
      ["garbage\ndata: notjson\ndata: \x7b\"type\":\"done\"\x7d\n".toList]
      = ([Json.obj [("type".toList, Json.str "done".toList)]], true) := by
  refine ⟨?_, ?_, rfl⟩
  · intro l ls hp
    simp [processLines, hp]
  · intro l ls hp hj
    simp [processLines, hp, hj]

/-- Witness for C10: a non-`data: ` line and an unparsable `data: ` line
are both dropped in front of the same tail. -/
theorem c10_malformed_lines_witness :
    processLines ("garbage".toList :: ["data: ok".toList])
      = processLines ["data: ok".toList] ∧
    processLines ("data: notjson".toList :: ["data: ok".toList])
      = processLines ["data: ok".toList] :=
  ⟨c10_malformed_lines.1 ("garbage".toList) ["data: ok".toList] (by rfl),
   c10_malformed_lines.2.1 ("data: notjson".toList) ["data: ok".toList]
     (by rfl) (by rfl)⟩

/-! Round-trip lemmas: the string escaping of the printer is inverted by
the string parser, member by member, giving the configuration round
trip. -/

theorem hexVal_hexDigitChar (n : Nat) (h : n < 16) :
    hexVal (hexDigitChar n) = some n := by
  interval_cases n <;> decide

theorem parseStringBody_unicode (m n : Nat) (hm : m < 16) (hn : n < 16)
    (X : List Char) :
    parseStringBody ('\\' :: 'u' :: '0' :: '0' :: hexDigitChar m ::
        hexDigitChar n :: X)
      = consStr (Char.ofNat (m * 16 + n)) (parseStringBody X) := by
  rw [parseStringBody.eq_def]
  simp +decide [hexVal_hexDigitChar m hm, hexVal_hexDigitChar n hn,
    show hexVal '0' = some 0 from by decide]

theorem parseStringBody_escape :
    ∀ (s rest : List Char),
      parseStringBody (escapeStr s ++ '"' :: rest) = some (s, rest) := by
  intro s
  induction s with
  | nil =>
    intro rest
    show parseStringBody ('"' :: rest) = some ([], rest)
    rw [parseStringBody.eq_def]
    simp +decide
  | cons c cs ih =>
    intro rest
    have hstep : escapeStr (c :: cs) ++ '"' :: rest
        = escapeChar c ++ (escapeStr cs ++ '"' :: rest) := by
      simp [escapeStr, List.append_assoc]
    rw [hstep]
    by_cases h1 : c = '"'
    · subst h1
      rw [show escapeChar '"' = ['\\', '"'] from by decide]
      simp only [List.cons_append, List.nil_append]
      rw [parseStringBody.eq_def]
      simp +decide [consStr, ih]
    · by_cases h2 : c = '\\'
      · subst h2
        rw [show escapeChar '\\' = ['\\', '\\'] from by decide]
        simp only [List.cons_append, List.nil_append]
        rw [parseStringBody.eq_def]
        simp +decide [consStr, ih]
      · by_cases h3 : c = Char.ofNat 8
        · subst h3
          rw [show escapeChar (Char.ofNat 8) = ['\\', 'b'] from by decide]
          simp only [List.cons_append, List.nil_append]
          rw [parseStringBody.eq_def]
          simp +decide [consStr, ih]
        · by_cases h4 : c = Char.ofNat 12
          · subst h4
            rw [show escapeChar (Char.ofNat 12) = ['\\', 'f'] from by decide]
            simp only [List.cons_append, List.nil_append]
            rw [parseStringBody.eq_def]
            simp +decide [consStr, ih]
          · by_cases h5 : c = '\n'
            · subst h5
              rw [show escapeChar '\n' = ['\\', 'n'] from by decide]
              simp only [List.cons_append, List.nil_append]
              rw [parseStringBody.eq_def]
              simp +decide [consStr, ih]
            · by_cases h6 : c = '\r'
              · subst h6
                rw [show escapeChar '\r' = ['\\', 'r'] from by decide]
                simp only [List.cons_append, List.nil_append]
                rw [parseStringBody.eq_def]
                simp +decide [consStr, ih]
              · by_cases h7 : c = '\t'
                · subst h7
                  rw [show escapeChar '\t' = ['\\', 't'] from by decide]
                  simp only [List.cons_append, List.nil_append]
                  rw [parseStringBody.eq_def]
                  simp +decide [consStr, ih]
                · by_cases h8 : c.toNat < 32
                  · have he : escapeChar c
                        = ['\\', 'u', '0', '0', hexDigitChar (c.toNat / 16),
                           hexDigitChar (c.toNat % 16)] := by
                      simp [escapeChar, h1, h2, h3, h4, h5, h6, h7, h8]
                    rw [he]
                    simp only [List.cons_append, List.nil_append]
                    rw [parseStringBody_unicode _ _ (by omega) (by omega)]
                    have hval : c.toNat / 16 * 16 + c.toNat % 16 = c.toNat := by
                      omega
                    rw [hval, Char.ofNat_toNat, ih]
                    rfl
                  · have he : escapeChar c = [c] := by
                      simp [escapeChar, h1, h2, h3, h4, h5, h6, h7, h8]
                    rw [he]
                    simp only [List.cons_append, List.nil_append]
                    rw [parseStringBody.eq_def]
                    simp +decide [h1, h2, consStr, ih]

theorem parseValue_strLit (f : Nat) (s rest : List Char) :
    parseValue (f + 1) ('"' :: (escapeStr s ++ '"' :: rest))
      = some (Json.str s, rest) := by
  rw [parseValue.eq_def]
  simp +decide [skipWs, parseStringBody_escape s rest]

theorem parseMembers_last (g : Nat) (k v tl : List Char) :
    parseMembers (g + 2) (cfgMember k v (braceR :: tl))
      = some ([(k, Json.str v)], tl) := by
  show parseMembers ((g + 1) + 1) _ = _
  rw [parseMembers.eq_def]
  simp +decide [cfgMember, skipWs, parseStringBody_escape,
    parseValue_strLit g v (braceR :: tl)]

theorem parseMembers_more (g : Nat) (k v tl : List Char)
    (ms : List (List Char × Json)) (rest : List Char)
    (h : parseMembers (g + 1) tl = some (ms, rest)) :
    parseMembers (g + 2) (cfgMember k v (',' :: tl))
      = some ((k, Json.str v) :: ms, rest) := by
  show parseMembers ((g + 1) + 1) _ = _
  rw [parseMembers.eq_def]
  simp +decide [cfgMember, skipWs, parseStringBody_escape,
    parseValue_strLit g v (',' :: tl), h]

theorem stringifyMembers_cons_shape (k v : List Char)
    (ms : List (List Char × List Char)) (rest : List Char) :
    stringifyMembers (strFields ((k, v) :: ms)) ++ rest
      = cfgMember k v
          (if ms.isEmpty then rest
           else ',' :: (stringifyMembers (strFields ms) ++ rest)) := by
  cases ms with
  | nil =>
    simp [stringifyMembers, strFields, jsonStringify, strLit, cfgMember,
      List.append_assoc]
  | cons hd tl =>
    simp [stringifyMembers, strFields, jsonStringify, strLit, cfgMember,
      List.append_assoc]

theorem parseMembers_strFields :
    ∀ (ms : List (List Char × List Char)) (k v : List Char) (g : Nat)
      (rest : List Char),
      parseMembers (ms.length + g + 2)
        (stringifyMembers (strFields ((k, v) :: ms)) ++ braceR :: rest)
        = some (strFields ((k, v) :: ms), rest) := by
  intro ms
  induction ms with
  | nil =>
    intro k v g rest
    rw [stringifyMembers_cons_shape k v [] (braceR :: rest)]
    simp only [List.isEmpty_nil, if_true, List.length_nil, Nat.zero_add]
    exact parseMembers_last g k v rest
  | cons hd tl ih =>
    intro k v g rest
    obtain ⟨k2, v2⟩ := hd
    rw [stringifyMembers_cons_shape k v ((k2, v2) :: tl) (braceR :: rest)]
    simp only [List.isEmpty_cons, if_false, Bool.false_eq_true]
    have hfe : ((k2, v2) :: tl).length + g + 2 = (tl.length + g + 1) + 2 := by
      simp [List.length_cons]
      omega
    rw [hfe]
    exact parseMembers_more (tl.length + g + 1) k v _ _ _ (ih k2 v2 g rest)

theorem parseValue_strObj (ms : List (List Char × List Char)) (g : Nat) :
    parseValue (ms.length + g + 3) (jsonStringify (Json.obj (strFields ms)))
      = some (Json.obj (strFields ms), []) := by
  cases ms with
  | nil =>
    have hstr : jsonStringify (Json.obj (strFields [])) = [braceL, braceR] := by
      simp [jsonStringify, stringifyMembers, strFields]
    rw [hstr]
    simp only [List.length_nil, Nat.zero_add]
    show parseValue ((g + 2) + 1) _ = _
    rw [parseValue.eq_def]
    simp +decide [skipWs, strFields]
  | cons hd tl =>
    obtain ⟨k, v⟩ := hd
    have hmem := parseMembers_strFields tl k v (g + 1) []
    have hstr : jsonStringify (Json.obj (strFields ((k, v) :: tl)))
        = braceL :: (stringifyMembers (strFields ((k, v) :: tl))
            ++ braceR :: []) := by
      simp [jsonStringify]
    rw [hstr, stringifyMembers_cons_shape k v tl (braceR :: [])]
    rw [stringifyMembers_cons_shape k v tl (braceR :: [])] at hmem
    have hfe : ((k, v) :: tl).length + g + 3 = (tl.length + (g + 1) + 2) + 1 := by
      simp only [List.length_cons]
      omega
    rw [hfe]
    simp +decide [cfgMember, strFields] at hmem
    rw [parseValue.eq_def]
    simp +decide [cfgMember, skipWs, hmem, strFields]

theorem length_stringifyMembers_ge :
    ∀ ms : List (List Char × List Char),
      ms.length ≤ (stringifyMembers (strFields ms)).length := by
  intro ms
  induction ms with
  | nil => simp [stringifyMembers, strFields]
  | cons hd tl ih =>
    obtain ⟨k, v⟩ := hd
    cases tl with
    | nil =>
      simp [stringifyMembers, strFields, strLit, jsonStringify]
    | cons hd2 tl2 =>
      obtain ⟨k2, v2⟩ := hd2
      simp only [stringifyMembers, strFields, strLit, jsonStringify,
        List.map_cons, List.length_cons, List.length_append] at ih ⊢
      omega

theorem jsonParse_strObj (ms : List (List Char × List Char)) :
    jsonParse (jsonStringify (Json.obj (strFields ms)))
      = some (Json.obj (strFields ms)) := by
  unfold jsonParse
  have h1 := length_stringifyMembers_ge ms
  have h2 : (jsonStringify (Json.obj (strFields ms))).length
      = (stringifyMembers (strFields ms)).length + 2 := by
    simp [jsonStringify]
  have hfe : (jsonStringify (Json.obj (strFields ms))).length + 16
      = ms.length
        + ((jsonStringify (Json.obj (strFields ms))).length + 13 - ms.length)
        + 3 := by
    omega
  rw [hfe, parseValue_strObj]
  rfl

/-- C6: storing the runtime configuration object via
`JSON.stringify` under `agentspace-config` and loading it back through
`loadConfigFromStorage` (`JSON.parse`) yields exactly the original
object, for every string-valued configuration object — whatever keys it
carries and in whatever order (so in particular for every valid
four-field Configuration record); the JSON image determines the
Configuration record, so the round trip is the identity on Configuration
values. -/
theorem c6_config_round_trip :
    (∀ ms : List (List Char × List Char),
      loadConfigFromStorage
          (some (saveConfigToStorage (Json.obj (strFields ms))))
        = some (Json.obj (strFields ms))) ∧
    (∀ cfg : AgentspaceConfig,
      loadConfigFromStorage (some (saveConfigToStorage (configToJson cfg)))
        = some (configToJson cfg)) ∧
    (∀ cfg cfg' : AgentspaceConfig,
      configToJson cfg = configToJson cfg' → cfg = cfg') := by
  have hmain : ∀ ms : List (List Char × List Char),
      loadConfigFromStorage
          (some (saveConfigToStorage (Json.obj (strFields ms))))
        = some (Json.obj (strFields ms)) := by
    intro ms
    show jsonParse (jsonStringify (Json.obj (strFields ms))) = some _
    exact jsonParse_strObj ms
  refine ⟨hmain, ?_, ?_⟩
  · intro cfg
    have hc : configToJson cfg = Json.obj (strFields
        [("projectNumber".toList, cfg.projectNumber),
         ("location".toList, cfg.location),
         ("engineId".toList, cfg.engineId),
         ("assistantId".toList, cfg.assistantId)]) := by
      simp [configToJson, strFields]
    rw [hc]
    exact hmain _
  · intro cfg cfg' h
    cases cfg
    cases cfg'
    simpa [configToJson] using h

/-- Witness for C6: a concrete configuration object whose keys are not in
declaration order, a concrete four-field Configuration record, and the
injectivity instance at that record. -/
theorem c6_config_round_trip_witness :
    loadConfigFromStorage (some (saveConfigToStorage (Json.obj (strFields
        [("location".toList, "us".toList),
         ("assistantId".toList, "default_assistant".toList),
         ("projectNumber".toList, "123456".toList),
         ("engineId".toList, "my-engine".toList)]))))
      = some (Json.obj (strFields
          [("location".toList, "us".toList),
           ("assistantId".toList, "default_assistant".toList),
           ("projectNumber".toList, "123456".toList),
           ("engineId".toList, "my-engine".toList)])) ∧
    loadConfigFromStorage (some (saveConfigToStorage (configToJson
        ⟨"123456".toList, "us".toList, "my-engine".toList,
          "default_assistant".toList⟩)))
      = some (configToJson
          ⟨"123456".toList, "us".toList, "my-engine".toList,
            "default_assistant".toList⟩) ∧
    (⟨"123456".toList, "us".toList, "my-engine".toList,
        "default_assistant".toList⟩ : AgentspaceConfig)
      = ⟨"123456".toList, "us".toList, "my-engine".toList,
          "default_assistant".toList⟩ :=
  ⟨c6_config_round_trip.1 _, c6_config_round_trip.2.1 _,
   c6_config_round_trip.2.2 _ _ rfl⟩

end Explorer
